import Mathlib

/-!
Verification of the policy-gradient agent core (`cs285/agents/pg_agent.py`).

The agent's numerical kernel is embedded shallowly over `ℚ`:
1-D NumPy arrays become `List ℚ`, per-trajectory inputs become
`List (List ℚ)`, and `np.concatenate` becomes `List.flatten`.  The policy
network and the value critic are external collaborators; they enter the
model as abstract state-transition functions, and the agent's calls to
them are recorded in an explicit call trace.  `np.std` computes a real
square root, which is irrational in general, so the standard deviation
used by advantage normalization is passed as an oracle function; theorems
about normalization hypothesize that this oracle squares to the
population variance, exactly the defining property of `np.std`.
-/

/-- Arithmetic mean of a list, `np.mean` (division by zero yields 0 for `[]`). -/

def listMean (l : List ℚ) : ℚ := l.sum / l.length

/-- Population variance of a list: the mean squared deviation from the mean
(`np.var`, the square of `np.std` with the default `ddof=0`). -/
def listVariance (l : List ℚ) : ℚ := listMean (l.map (fun x => (x - listMean l) ^ 2))

/-- The small constant `1e-8` added to the standard deviation before dividing. -/
def epsNorm : ℚ := 1 / 100000000

/-- `PGAgent._discounted_return`: the total discounted return
`sum(gamma ** t * rewards[t] for t in range(len(rewards)))`, replicated once
per timestep (`[total_return] * len(rewards)`). -/
def discounted_return (γ : ℚ) (rewards : List ℚ) : List ℚ :=
  let total : ℚ := ((List.range rewards.length).map (fun t => γ ^ t * rewards.getD t 0)).sum
  List.replicate rewards.length total

/-- `PGAgent._discounted_reward_to_go`: entry `t` accumulates
`gamma ** (t_prime - t) * rewards[t_prime]` for `t_prime in range(t, n)`. -/
def discounted_reward_to_go (γ : ℚ) (rewards : List ℚ) : List ℚ :=
  let n := rewards.length
  (List.range n).map
    (fun t => ((List.range' t (n - t)).map (fun tp => γ ^ (tp - t) * rewards.getD tp 0)).sum)

/-- Modelled from the spec: the discounted sum `Σ_t γ^t r_t` written as a
right fold (Horner form), used as the specification-side formula for both
Q-value modes. -/
def specDiscountedSum (γ : ℚ) (r : List ℚ) : ℚ := r.foldr (fun x acc => x + γ * acc) 0

/-- Construction-time configuration of `PGAgent.__init__` (the network-size
and learning-rate arguments only shape the external networks and are
omitted; every behaviour-relevant flag is kept). -/
structure AgentConfig where
  gamma : ℚ
  use_baseline : Bool
  use_reward_to_go : Bool
  baseline_gradient_steps : Option Int
  gae_lambda : Option ℚ
  normalize_advantages : Bool

/-- The agent state produced by `PGAgent.__init__`: the critic is present
exactly when `use_baseline` was set (its freshly initialized value function
is the abstract `ℚ → ℚ` supplied at construction), and the
`baseline_gradient_steps` attribute exists only in that case. -/
structure Agent where
  critic : Option (ℚ → ℚ)
  baseline_gradient_steps : Option Int
  gamma : ℚ
  use_reward_to_go : Bool
  gae_lambda : Option ℚ
  normalize_advantages : Bool

/-- `PGAgent.__init__`.  The Python constructor performs no validation and
raises on no configuration, so the result is always `some`; `Option` is the
failure mode a construction-time rejection would use. -/
def PGAgent.mk (cfg : AgentConfig) (critic0 : ℚ → ℚ) : Option Agent :=
  some
    { critic := if cfg.use_baseline then some critic0 else none
      baseline_gradient_steps := if cfg.use_baseline then cfg.baseline_gradient_steps else none
      gamma := cfg.gamma
      use_reward_to_go := cfg.use_reward_to_go
      gae_lambda := cfg.gae_lambda
      normalize_advantages := cfg.normalize_advantages }

/-- `PGAgent._calculate_q_vals`: one Q-value sequence per trajectory. -/
def calculate_q_vals (ag : Agent) (rewards : List (List ℚ)) : List (List ℚ) :=
  if ag.use_reward_to_go then rewards.map (discounted_reward_to_go ag.gamma)
  else rewards.map (discounted_return ag.gamma)

/-- Failures the update path can raise: the `assert` on baseline prediction
shape, and the `TypeError` of `range(None)` when `baseline_gradient_steps`
was never supplied. -/
inductive AgentErr where
  | shapeMismatch : AgentErr
  | typeErr : AgentErr
deriving DecidableEq, Repr

/-- One iteration of the GAE loop body: compute `delta_t`, write
`advantages[i]`, and carry `next_advantage`.  The state is the
`advantages` array paired with `next_advantage`. -/
def gaeLoopGo (γ lam : ℚ) (r v term : ℕ → ℚ) : List ℕ → List ℚ × ℚ → List ℚ × ℚ
  | [], st => st
  | i :: rest, (adv, nextA) =>
      let δ : ℚ := r i + γ * v (i + 1) * (1 - term i) - v i
      let a : ℚ := δ + γ * lam * nextA * (1 - term i)
      gaeLoopGo γ lam r v term rest (adv.set i a, a)

/-- `PGAgent._estimate_advantage` on flat arrays.  `stdFn` stands for
`np.std`; it is consulted only when `normalize_advantages` is set. -/
def estimate_advantage (ag : Agent) (obs rewards q_values terminals : List ℚ)
    (stdFn : List ℚ → ℚ) : Except AgentErr (List ℚ) := do
  let advantages ←
    match ag.critic with
    | none => pure q_values
    | some crit => do
        let values := obs.map crit
        if values.length = q_values.length then
          match ag.gae_lambda with
          | none => pure (List.zipWith (fun q v => q - v) q_values values)
          | some lam =>
              let batch_size := obs.length
              let valuesPad := values ++ [0]
              let st := gaeLoopGo ag.gamma lam (fun i => rewards.getD i 0)
                (fun i => valuesPad.getD i 0) (fun i => terminals.getD i 0)
                ((List.range batch_size).reverse)
                (List.replicate (batch_size + 1) 0, 0)
              pure st.1.dropLast
        else throw AgentErr.shapeMismatch
  if ag.normalize_advantages then
    let m := listMean advantages
    let s := stdFn advantages + epsNorm
    pure (advantages.map (fun x => (x - m) / s))
  else
    pure advantages

/-- A recorded invocation of an external collaborator, with the arrays it
received; one `actor` call mutates the policy parameters once and one
`critic` call mutates the baseline parameters once. -/
inductive Call where
  | actor (obs actions advantages : List ℚ) : Call
  | critic (obs targets : List ℚ) : Call
deriving DecidableEq, Repr

/-- The external collaborators of `PGAgent.update`: `actorUpd` is
`MLPPolicyPG.update` and `criticUpd` is `ValueCritic.update`, each mapping
its current parameter state and arguments to a new state and a diagnostics
record. -/
structure Collabs (σa σc Da Dc : Type) where
  actorUpd : σa → List ℚ → List ℚ → List ℚ → σa × Da
  criticUpd : σc → List ℚ → List ℚ → σc × Dc

/-- The `for _ in range(n)` loop over `critic.update`: iterate the update
`n` times from state `s`, returning the final state and, when at least one
step ran, the diagnostics of the final step (the Python loop leaves
`critic_info` untouched when `n = 0`). -/
def criticLoop {σc Dc : Type} (f : σc → σc × Dc) : ℕ → σc → σc × Option Dc
  | 0, s => (s, none)
  | k + 1, s =>
      let s1 := (f s).1
      match criticLoop f k s1 with
      | (s2, none) => (s2, some (f s).2)
      | (s2, some d) => (s2, some d)

/-- The diagnostics record returned by a successful `PGAgent.update`,
together with the final collaborator parameter states. -/
structure UpdateOut (σa σc Da Dc : Type) where
  actorState : σa
  criticState : σc
  actor_info : Da
  critic_info : Option Dc

/-- `PGAgent.update`: compute Q-values, flatten every per-trajectory list
(`np.concatenate` = list flattening), estimate advantages, update the actor
once, then run the critic loop when a baseline is configured.  The first
component is the chronological trace of collaborator invocations — every
parameter mutation — performed before returning or failing. -/
def PGAgent.update {σa σc Da Dc : Type} (ag : Agent) (co : Collabs σa σc Da Dc)
    (sa : σa) (sc : σc) (obs actions rewards terminals : List (List ℚ))
    (stdFn : List ℚ → ℚ) : List Call × Except AgentErr (UpdateOut σa σc Da Dc) :=
  let q_values := calculate_q_vals ag rewards
  let obsF := obs.flatten
  let actionsF := actions.flatten
  let rewardsF := rewards.flatten
  let terminalsF := terminals.flatten
  let qF := q_values.flatten
  match estimate_advantage ag obsF rewardsF qF terminalsF stdFn with
  | Except.error e => ([], Except.error e)
  | Except.ok advantages =>
      let (sa1, da) := co.actorUpd sa obsF actionsF advantages
      let actorCall := Call.actor obsF actionsF advantages
      match ag.critic with
      | none =>
          ([actorCall],
            Except.ok ⟨sa1, sc, da, none⟩)
      | some _ =>
          match ag.baseline_gradient_steps with
          | none => ([actorCall], Except.error AgentErr.typeErr)
          | some nsteps =>
              let (sc1, dcOpt) := criticLoop (fun s => co.criticUpd s obsF qF) nsteps.toNat sc
              (actorCall :: List.replicate nsteps.toNat (Call.critic obsF qF),
                Except.ok ⟨sa1, sc1, da, dcOpt⟩)

/-- Modelled from the spec: the GAE backward recursion with sentinels
`A_n = 0` and (through `V`, which the theorems instantiate so that
`V n = 0`) `V_n = 0`:
`A_i = (r_i + γ·V_{i+1}·(1 − term_i) − V_i) + γ·λ·A_{i+1}·(1 − term_i)`. -/
def gaeRecurrence (γ lam : ℚ) (r V term : ℕ → ℚ) (n i : ℕ) : ℚ :=
  if _h : i < n then
    (r i + γ * V (i + 1) * (1 - term i) - V i)
      + γ * lam * gaeRecurrence γ lam r V term n (i + 1) * (1 - term i)
  else 0
termination_by n - i
decreasing_by omega

/-- Modelled from the spec: the full advantage array of the GAE backward
recursion, index by index. -/
def gaeSpecArray (γ lam : ℚ) (r V term : ℕ → ℚ) (n : ℕ) : List ℚ :=
  (List.range n).map (gaeRecurrence γ lam r V term n)

/-- Concrete GAE-mode agent used to instantiate the C1 theorem. -/
def agC1 : Agent :=
  { critic := some (fun x => x), baseline_gradient_steps := some 1, gamma := 1/2,
    use_reward_to_go := true, gae_lambda := some (1/2), normalize_advantages := false }

/-- State after `m` critic gradient steps. -/
def criticIter {σc Dc : Type} (f : σc → σc × Dc) : ℕ → σc → σc
  | 0, s => s
  | k + 1, s => criticIter f k (f s).1

/-- Concrete baseline-mode agent (Q − V advantages) for the C4 witness. -/
def agC4 : Agent :=
  { critic := some (fun _ => 0), baseline_gradient_steps := some 2, gamma := 1,
    use_reward_to_go := true, gae_lambda := none, normalize_advantages := false }

/-- Concrete collaborators recording simple numeric diagnostics. -/
def coC4 : Collabs ℚ ℚ ℚ ℚ :=
  { actorUpd := fun s _ _ advantages => (s + 1, advantages.sum)
    criticUpd := fun s _ targets => (s * 2 + 1, s + targets.sum) }

/-- Baseline-mode agent whose batch will trip the shape assert. -/
def agC5 : Agent :=
  { critic := some (fun x => x), baseline_gradient_steps := some 1, gamma := 1,
    use_reward_to_go := true, gae_lambda := none, normalize_advantages := false }

/-- Collaborators for the C5 witness (never reached). -/
def coC5 : Collabs ℚ ℚ ℚ ℚ :=
  { actorUpd := fun s _ _ _ => (s + 1, 0)
    criticUpd := fun s _ _ => (s + 1, 0) }

/-- No-baseline agent for the C7 refutation. -/
def agC7 : Agent :=
  { critic := none, baseline_gradient_steps := none, gamma := 1,
    use_reward_to_go := false, gae_lambda := none, normalize_advantages := false }

/-- Collaborators for the C7 refutation. -/
def coC7 : Collabs ℚ ℚ ℚ ℚ :=
  { actorUpd := fun s _ _ _ => (s + 1, 0)
    criticUpd := fun s _ _ => (s + 1, 0) }

/-- Normalizing agent for the C8 witness. -/
def agC8 : Agent :=
  { critic := none, baseline_gradient_steps := none, gamma := 1,
    use_reward_to_go := false, gae_lambda := none, normalize_advantages := true }

theorem specDiscountedSum_nil (γ : ℚ) : specDiscountedSum γ [] = 0 := rfl

theorem specDiscountedSum_cons (γ x : ℚ) (xs : List ℚ) :
    specDiscountedSum γ (x :: xs) = x + γ * specDiscountedSum γ xs := rfl

/-- The indexed discounted sum over a whole list equals its Horner form. -/
theorem range_sum_eq_specDiscountedSum (γ : ℚ) (l : List ℚ) :
    ((List.range l.length).map (fun t => γ ^ t * l.getD t 0)).sum = specDiscountedSum γ l := by
  induction l with
  | nil => simp [specDiscountedSum]
  | cons x xs ih =>
      rw [List.length_cons, List.range_succ_eq_map, List.map_cons, List.sum_cons,
        specDiscountedSum_cons, List.map_map]
      simp only [pow_zero, one_mul, List.getD_cons_zero]
      rw [← ih, ← List.sum_map_mul_left]
      congr 1
      apply congrArg List.sum
      apply List.map_congr_left
      intro t _
      simp [Function.comp, pow_succ, List.getD_cons_succ]
      ring

theorem gaeRecurrence_of_lt (γ lam : ℚ) (r V term : ℕ → ℚ) {n i : ℕ} (h : i < n) :
    gaeRecurrence γ lam r V term n i =
      (r i + γ * V (i + 1) * (1 - term i) - V i)
        + γ * lam * gaeRecurrence γ lam r V term n (i + 1) * (1 - term i) := by
  rw [gaeRecurrence]
  simp [h]

theorem gaeRecurrence_of_ge (γ lam : ℚ) (r V term : ℕ → ℚ) {n i : ℕ} (h : n ≤ i) :
    gaeRecurrence γ lam r V term n i = 0 := by
  rw [gaeRecurrence]
  simp [Nat.not_lt.mpr h]

/-- Invariant of the Python GAE loop: running the body over indices
`k-1, …, 0` starting from carry `A_k` writes exactly the recurrence values
into positions `0, …, k-1` and touches nothing else. -/
theorem gaeLoopGo_range_spec (γ lam : ℚ) (r v term : ℕ → ℚ) (n : ℕ) :
    ∀ k, k ≤ n → ∀ adv : List ℚ, n < adv.length →
      ((gaeLoopGo γ lam r v term ((List.range k).reverse)
          (adv, gaeRecurrence γ lam r v term n k)).1.length = adv.length) ∧
      (∀ j, (gaeLoopGo γ lam r v term ((List.range k).reverse)
          (adv, gaeRecurrence γ lam r v term n k)).1.getD j 0 =
        if j < k then gaeRecurrence γ lam r v term n j else adv.getD j 0) := by
  intro k
  induction k with
  | zero =>
      intro _ adv _
      constructor
      · rfl
      · intro j
        simp [gaeLoopGo]
  | succ k ih =>
      intro hk adv hlen
      have hkn : k < n := by omega
      have hrev : (List.range (k + 1)).reverse = k :: (List.range k).reverse := by
        simp [List.range_succ]
      have hstep :
          gaeLoopGo γ lam r v term ((List.range (k + 1)).reverse)
            (adv, gaeRecurrence γ lam r v term n (k + 1)) =
          gaeLoopGo γ lam r v term ((List.range k).reverse)
            (adv.set k (gaeRecurrence γ lam r v term n k),
              gaeRecurrence γ lam r v term n k) := by
        rw [hrev]
        show gaeLoopGo γ lam r v term ((List.range k).reverse) _ = _
        rw [gaeRecurrence_of_lt γ lam r v term hkn]
      rw [hstep]
      have hlen' : n < (adv.set k (gaeRecurrence γ lam r v term n k)).length := by
        simpa using hlen
      obtain ⟨ihlen, ihget⟩ := ih (by omega) _ hlen'
      constructor
      · rw [ihlen]
        simp
      · intro j
        rw [ihget j]
        by_cases hj : j < k
        · simp [hj, Nat.lt_succ_of_lt hj]
        · by_cases hjk : j = k
          · subst hjk
            have hjlen : j < adv.length := by omega
            simp [hj, Nat.lt_succ_self,
              List.getD_eq_getElem?_getD, List.getElem?_set_self, hjlen]
          · have hjk1 : ¬ j < k + 1 := by omega
            simp [hj, hjk1, List.getD_eq_getElem?_getD,
              List.getElem?_set_ne (Ne.symm hjk)]

/-- Appending the sentinel `0` never changes a `getD _ 0` lookup: reads past
the end of the unpadded array already default to the sentinel value. -/
theorem getD_append_zero (l : List ℚ) (j : ℕ) : (l ++ [0]).getD j 0 = l.getD j 0 := by
  rcases Nat.lt_trichotomy j l.length with h | h | h
  · simp [List.getD_eq_getElem?_getD, List.getElem?_append_left h]
  · subst h
    simp [List.getD_eq_getElem?_getD, List.getElem?_append_right (Nat.le_refl _)]
  · have h1 : l.length ≤ j := Nat.le_of_lt h
    have h2 : (l ++ [0]).length ≤ j := by
      simp
      omega
    simp [List.getD_eq_getElem?_getD, List.getElem?_eq_none h2, List.getElem?_eq_none h1]

/-- Every `getD _ 0` read of the all-zero scratch array is `0`. -/
theorem getD_replicate_zero (n j : ℕ) : (List.replicate n (0 : ℚ)).getD j 0 = 0 := by
  simp [List.getD_eq_getElem?_getD, List.getElem?_replicate]
  split <;> simp

/-- Dropping the dummy final entry preserves every in-range read. -/
theorem getD_dropLast (l : List ℚ) (j : ℕ) (h : j < l.length - 1) :
    l.dropLast.getD j 0 = l.getD j 0 := by
  have hj : j < l.length := by omega
  simp [List.getD_eq_getElem?_getD, List.dropLast_eq_take, List.getElem?_take, h,
    List.getElem?_eq_getElem hj]

/-- Bridge: in GAE mode with normalization off, `_estimate_advantage` returns
exactly the array of the spec backward recursion, where `V` is the critic
prediction on each observation (and `0` past the batch, the sentinel). -/
theorem estimate_advantage_gae_eq (ag : Agent) (crit : ℚ → ℚ) (lam : ℚ)
    (obs rewards q_values terminals : List ℚ) (stdFn : List ℚ → ℚ)
    (hc : ag.critic = some crit) (hl : ag.gae_lambda = some lam)
    (hnorm : ag.normalize_advantages = false)
    (hq : q_values.length = obs.length) :
    estimate_advantage ag obs rewards q_values terminals stdFn =
      Except.ok (gaeSpecArray ag.gamma lam (fun i => rewards.getD i 0)
        (fun j => (obs.map crit).getD j 0) (fun i => terminals.getD i 0) obs.length) := by
  have hlen : (obs.map crit).length = q_values.length := by
    simp [hq]
  have hv : (fun i => ((obs.map crit) ++ [0]).getD i 0)
      = (fun j => (obs.map crit).getD j 0) := by
    funext j
    exact getD_append_zero _ j
  have hz : (0 : ℚ) = gaeRecurrence ag.gamma lam (fun i => rewards.getD i 0)
      (fun j => (obs.map crit).getD j 0) (fun i => terminals.getD i 0) obs.length obs.length :=
    (gaeRecurrence_of_ge _ _ _ _ _ (Nat.le_refl _)).symm
  obtain ⟨hlooplen, hloopget⟩ := gaeLoopGo_range_spec ag.gamma lam (fun i => rewards.getD i 0)
    (fun j => (obs.map crit).getD j 0) (fun i => terminals.getD i 0) obs.length obs.length
    (Nat.le_refl _) (List.replicate (obs.length + 1) 0) (by simp)
  rw [gaeRecurrence_of_ge _ _ _ _ _ (Nat.le_refl _)] at hlooplen hloopget
  simp only [estimate_advantage, hc, hl, hnorm, hlen, if_pos, hv]
  simp only [pure_bind, Bool.false_eq_true, if_false]
  show Except.ok _ = _
  congr 1
  apply List.ext_getElem
  · rw [List.length_dropLast, hlooplen]
    simp [gaeSpecArray]
  · intro j hj1 hj2
    have hjn : j < obs.length := by
      simpa [gaeSpecArray] using hj2
    rw [← List.getD_eq_getElem _ 0 hj1, ← List.getD_eq_getElem _ 0 hj2]
    rw [getD_dropLast _ j (by rw [hlooplen]; simp; omega)]
    rw [hloopget j]
    simp only [hjn, if_pos]
    simp [gaeSpecArray, List.getD_eq_getElem?_getD, List.getElem?_map, List.getElem?_range hjn]

/-- Entry `t` of `_discounted_reward_to_go` is the discounted sum of the
rewards from `t` onward. -/
theorem discounted_reward_to_go_getD (γ : ℚ) (r : List ℚ) {t : ℕ} (h : t < r.length) :
    (discounted_reward_to_go γ r).getD t 0 = specDiscountedSum γ (r.drop t) := by
  have h1 : (discounted_reward_to_go γ r).getD t 0
      = ((List.range' t (r.length - t)).map (fun tp => γ ^ (tp - t) * r.getD tp 0)).sum := by
    simp [discounted_reward_to_go, List.getD_eq_getElem?_getD, List.getElem?_map,
      List.getElem?_range h]
  rw [h1, List.range'_eq_map_range, List.map_map, ← range_sum_eq_specDiscountedSum]
  have hlen : (r.drop t).length = r.length - t := by
    simp
  rw [hlen]
  apply congrArg List.sum
  apply List.map_congr_left
  intro k _
  simp only [Function.comp]
  have hk : t + k - t = k := by
    omega
  rw [hk]
  congr 1
  simp [List.getD_eq_getElem?_getD, List.getElem?_drop]

/-- A singleton's discounted sum is its only element. -/
theorem specDiscountedSum_singleton (γ x : ℚ) : specDiscountedSum γ [x] = x := by
  simp [specDiscountedSum]

/-- `_calculate_q_vals` acts trajectory by trajectory. -/
theorem calculate_q_vals_getD (ag : Agent) (rs : List (List ℚ)) (k : ℕ) :
    (calculate_q_vals ag rs).getD k []
      = (if ag.use_reward_to_go then discounted_reward_to_go ag.gamma
          else discounted_return ag.gamma) (rs.getD k []) := by
  unfold calculate_q_vals
  by_cases hk : k < rs.length
  · by_cases hb : ag.use_reward_to_go
    · simp [hb, List.getD_eq_getElem?_getD, List.getElem?_map,
        List.getElem?_eq_getElem hk]
    · simp [hb, List.getD_eq_getElem?_getD, List.getElem?_map,
        List.getElem?_eq_getElem hk]
  · have hk2 : rs.length ≤ k := Nat.le_of_not_lt hk
    by_cases hb : ag.use_reward_to_go <;>
      simp [hb, List.getD_eq_getElem?_getD, List.getElem?_eq_none, hk2,
        discounted_reward_to_go, discounted_return]

/-- C2: in reward-to-go mode the Q-value output has one entry per timestep;
entry `t` is the discounted tail sum of the rewards from `t` on; the entry at
`T-1` is exactly the final reward; the entry at `0` is the full-trajectory
discounted return; and each trajectory's output depends only on that
trajectory's rewards. -/
theorem C2_reward_to_go_spec (γ : ℚ) (rewards : List ℚ) :
    (discounted_reward_to_go γ rewards).length = rewards.length ∧
    (∀ t, t < rewards.length →
      (discounted_reward_to_go γ rewards).getD t 0 = specDiscountedSum γ (rewards.drop t)) ∧
    (0 < rewards.length →
      (discounted_reward_to_go γ rewards).getD (rewards.length - 1) 0
        = rewards.getD (rewards.length - 1) 0) ∧
    (0 < rewards.length →
      (discounted_reward_to_go γ rewards).getD 0 0 = (discounted_return γ rewards).getD 0 0) ∧
    (∀ (ag : Agent) (rs1 rs2 : List (List ℚ)) (k : ℕ), ag.use_reward_to_go = true →
      rs1.getD k [] = rs2.getD k [] →
      (calculate_q_vals ag rs1).getD k [] = (calculate_q_vals ag rs2).getD k []) := by
  refine ⟨?_, ?_, ?_, ?_, ?_⟩
  · simp [discounted_reward_to_go]
  · intro t ht
    exact discounted_reward_to_go_getD γ rewards ht
  · intro hpos
    rw [discounted_reward_to_go_getD γ rewards (by omega)]
    have hlen : (rewards.drop (rewards.length - 1)).length = 1 := by
      simp
      omega
    obtain ⟨a, ha⟩ := List.length_eq_one.mp hlen
    have hget : (rewards.drop (rewards.length - 1)).getD 0 0
        = rewards.getD (rewards.length - 1) 0 := by
      simp [List.getD_eq_getElem?_getD, List.getElem?_drop]
    rw [ha] at hget ⊢
    rw [specDiscountedSum_singleton]
    simpa using hget
  · intro hpos
    rw [discounted_reward_to_go_getD γ rewards (by omega)]
    simp only [List.drop_zero]
    have hrep : (discounted_return γ rewards).getD 0 0
        = ((List.range rewards.length).map (fun t => γ ^ t * rewards.getD t 0)).sum := by
      simp [discounted_return, List.getD_eq_getElem?_getD, List.getElem?_replicate, hpos]
    rw [hrep, range_sum_eq_specDiscountedSum]
  · intro ag rs1 rs2 k _ hk
    rw [calculate_q_vals_getD, calculate_q_vals_getD, hk]

/-- C2 witness: at `γ = 9/10`, `rewards = [1, 1]` the final entry is the final
reward and entry 0 is the full discounted return. -/
theorem C2_reward_to_go_spec_witness :
    0 < ([1, 1] : List ℚ).length ∧
    (discounted_reward_to_go (9/10) [1, 1]).getD (([1, 1] : List ℚ).length - 1) 0
      = ([1, 1] : List ℚ).getD (([1, 1] : List ℚ).length - 1) 0 :=
  ⟨by decide, (C2_reward_to_go_spec (9/10) [1, 1]).2.2.1 (by decide)⟩

/-- C3: in full-trajectory-return mode the Q-value output has one entry per
timestep, every entry is the same full discounted return, and a length-1
trajectory yields its sole reward. -/
theorem C3_discounted_return_spec (γ : ℚ) (rewards : List ℚ) :
    (discounted_return γ rewards).length = rewards.length ∧
    (∀ t, t < rewards.length →
      (discounted_return γ rewards).getD t 0 = specDiscountedSum γ rewards) ∧
    (rewards.length = 1 →
      (discounted_return γ rewards).getD 0 0 = rewards.getD 0 0) := by
  refine ⟨?_, ?_, ?_⟩
  · simp [discounted_return]
  · intro t ht
    have hrep : (discounted_return γ rewards).getD t 0
        = ((List.range rewards.length).map (fun u => γ ^ u * rewards.getD u 0)).sum := by
      simp [discounted_return, List.getD_eq_getElem?_getD, List.getElem?_replicate, ht]
    rw [hrep, range_sum_eq_specDiscountedSum]
  · intro h1
    have hrep : (discounted_return γ rewards).getD 0 0
        = ((List.range rewards.length).map (fun u => γ ^ u * rewards.getD u 0)).sum := by
      simp [discounted_return, List.getD_eq_getElem?_getD, List.getElem?_replicate, h1]
    rw [hrep, range_sum_eq_specDiscountedSum]
    obtain ⟨a, ha⟩ := List.length_eq_one.mp h1
    rw [ha, specDiscountedSum_singleton]
    simp

/-- C3 witness: a trajectory of length 1 yields `Q_0 = r_0` exactly. -/
theorem C3_discounted_return_spec_witness :
    ([5] : List ℚ).length = 1 ∧
    (discounted_return (1/2) [5]).getD 0 0 = ([5] : List ℚ).getD 0 0 :=
  ⟨by decide, (C3_discounted_return_spec (1/2) [5]).2.2 (by decide)⟩

/-- C1: in GAE mode (baseline configured and λ set), with normalization off,
the advantage array has one raw entry per batch index and each entry is the
spec's backward recursion value, computed with sentinels `V_N = 0` (the
critic-value lookup defaults to 0 past the batch) and `A_N = 0`:
`δ_i = r_i + γ·V_{i+1}·(1 − terminal_i) − V_i` and
`A_i = δ_i + γ·λ·A_{i+1}·(1 − terminal_i)`. -/
theorem C1_gae_recursion (ag : Agent) (crit : ℚ → ℚ) (lam : ℚ)
    (obs rewards q_values terminals : List ℚ) (stdFn : List ℚ → ℚ)
    (hc : ag.critic = some crit) (hl : ag.gae_lambda = some lam)
    (hnorm : ag.normalize_advantages = false)
    (hq : q_values.length = obs.length) :
    ∃ adv : List ℚ,
      estimate_advantage ag obs rewards q_values terminals stdFn = Except.ok adv ∧
      adv.length = obs.length ∧
      ∀ i, i < obs.length → adv.getD i 0 =
        gaeRecurrence ag.gamma lam (fun j => rewards.getD j 0)
          (fun j => (obs.map crit).getD j 0) (fun j => terminals.getD j 0) obs.length i := by
  refine ⟨_, estimate_advantage_gae_eq ag crit lam obs rewards q_values terminals stdFn
    hc hl hnorm hq, ?_, ?_⟩
  · simp [gaeSpecArray]
  · intro i hi
    simp [gaeSpecArray, List.getD_eq_getElem?_getD, List.getElem?_map, List.getElem?_range hi]

/-- C1 witness: the theorem applied at a concrete two-step batch. -/
theorem C1_gae_recursion_witness :
    agC1.critic = some (fun x => x) ∧ agC1.gae_lambda = some (1/2) ∧
    agC1.normalize_advantages = false ∧
    ([5, 6] : List ℚ).length = ([1, 2] : List ℚ).length ∧
    ∃ adv : List ℚ,
      estimate_advantage agC1 [1, 2] [3, 4] [5, 6] [0, 1] (fun _ => 0) = Except.ok adv ∧
      adv.length = ([1, 2] : List ℚ).length ∧
      ∀ i, i < ([1, 2] : List ℚ).length → adv.getD i 0 =
        gaeRecurrence agC1.gamma (1/2) (fun j => ([3, 4] : List ℚ).getD j 0)
          (fun j => (([1, 2] : List ℚ).map (fun x => x)).getD j 0)
          (fun j => ([0, 1] : List ℚ).getD j 0) ([1, 2] : List ℚ).length i :=
  ⟨rfl, rfl, rfl, rfl,
    C1_gae_recursion agC1 (fun x => x) (1/2) [1, 2] [3, 4] [5, 6] [0, 1] (fun _ => 0)
      rfl rfl rfl rfl⟩

/-- C10: in GAE mode the advantage output is completely independent of the
Q-value array — two calls agreeing on observations, rewards, terminals and
the critic but with different (shape-matching) Q-values return identical
results; Q-values only feed the `assert` on shapes. -/
theorem C10_gae_ignores_q (ag : Agent) (crit : ℚ → ℚ) (lam : ℚ)
    (obs rewards q1 q2 terminals : List ℚ) (stdFn : List ℚ → ℚ)
    (hc : ag.critic = some crit) (hl : ag.gae_lambda = some lam)
    (h1 : q1.length = obs.length) (h2 : q2.length = obs.length) :
    estimate_advantage ag obs rewards q1 terminals stdFn
      = estimate_advantage ag obs rewards q2 terminals stdFn := by
  simp [estimate_advantage, hc, hl, h1, h2]

/-- C10 witness: same batch, two different Q-value arrays, equal advantage
output. -/
theorem C10_gae_ignores_q_witness :
    agC1.critic = some (fun x => x) ∧ agC1.gae_lambda = some (1/2) ∧
    ([5, 6] : List ℚ).length = ([1, 2] : List ℚ).length ∧
    ([100, -7] : List ℚ).length = ([1, 2] : List ℚ).length ∧
    estimate_advantage agC1 [1, 2] [3, 4] [5, 6] [0, 1] (fun _ => 0)
      = estimate_advantage agC1 [1, 2] [3, 4] [100, -7] [0, 1] (fun _ => 0) :=
  ⟨rfl, rfl, rfl, rfl,
    C10_gae_ignores_q agC1 (fun x => x) (1/2) [1, 2] [3, 4] [5, 6] [100, -7] [0, 1]
      (fun _ => 0) rfl rfl rfl rfl⟩

/-- Locality of the GAE backward recursion: below an index whose terminal
marker is 1, the recursion value depends only on the rewards between that
index and the terminal one. -/
theorem gaeRecurrence_local_dep (γ lam : ℚ) (r1 r2 V term : ℕ → ℚ) (n e : ℕ)
    (hen : e < n) (hterm : term e = 1) :
    ∀ k i, i + k = e → (∀ j, i ≤ j → j ≤ e → r1 j = r2 j) →
      gaeRecurrence γ lam r1 V term n i = gaeRecurrence γ lam r2 V term n i := by
  intro k
  induction k with
  | zero =>
      intro i hie hr
      have hi : i = e := by omega
      subst hi
      rw [gaeRecurrence_of_lt γ lam r1 V term hen, gaeRecurrence_of_lt γ lam r2 V term hen,
        hterm, hr i (Nat.le_refl i) (Nat.le_refl i)]
      ring
  | succ k ih =>
      intro i hie hr
      have hin : i < n := by omega
      rw [gaeRecurrence_of_lt γ lam r1 V term hin, gaeRecurrence_of_lt γ lam r2 V term hin,
        hr i (Nat.le_refl i) (by omega),
        ih (i + 1) (by omega) (fun j hj1 hj2 => hr j (by omega) hj2)]

/-- Reading the spec advantage array at an in-range index gives the
recursion value there. -/
theorem gaeSpecArray_getD (γ lam : ℚ) (r V term : ℕ → ℚ) (n i : ℕ) (h : i < n) :
    (gaeSpecArray γ lam r V term n).getD i 0 = gaeRecurrence γ lam r V term n i := by
  rw [gaeSpecArray, List.getD_eq_getElem?_getD, List.getElem?_map, List.getElem?_range h]
  rfl

/-- C9: in GAE mode with normalization off, two batches agreeing on
observations, terminals and the critic, whose rewards agree at every index
of a trajectory ending at terminal-marked index `e`, get identical
advantages at every index of that trajectory — rewards of other
trajectories never leak in. -/
theorem C9_gae_trajectory_independence (ag : Agent) (crit : ℚ → ℚ) (lam : ℚ)
    (obs r1 r2 q terminals : List ℚ) (stdFn : List ℚ → ℚ)
    (hc : ag.critic = some crit) (hl : ag.gae_lambda = some lam)
    (hnorm : ag.normalize_advantages = false)
    (hq : q.length = obs.length)
    (s e : ℕ) (he : e < obs.length)
    (hterm : terminals.getD e 0 = 1)
    (hagree : ∀ j, s ≤ j → j ≤ e → r1.getD j 0 = r2.getD j 0) :
    ∃ a1 a2 : List ℚ,
      estimate_advantage ag obs r1 q terminals stdFn = Except.ok a1 ∧
      estimate_advantage ag obs r2 q terminals stdFn = Except.ok a2 ∧
      ∀ i, s ≤ i → i ≤ e → a1.getD i 0 = a2.getD i 0 := by
  refine ⟨_, _, estimate_advantage_gae_eq ag crit lam obs r1 q terminals stdFn hc hl hnorm hq,
    estimate_advantage_gae_eq ag crit lam obs r2 q terminals stdFn hc hl hnorm hq, ?_⟩
  intro i hsi hie
  have hin : i < obs.length := lt_of_le_of_lt hie he
  rw [gaeSpecArray_getD _ _ _ _ _ _ _ hin, gaeSpecArray_getD _ _ _ _ _ _ _ hin]
  exact gaeRecurrence_local_dep ag.gamma lam (fun j => r1.getD j 0) (fun j => r2.getD j 0)
    (fun j => (obs.map crit).getD j 0) (fun j => terminals.getD j 0) obs.length e he hterm
    (e - i) i (by omega) (fun j hj1 hj2 => hagree j (le_trans hsi hj1) hj2)

/-- C9 witness: rewards changed only in the second trajectory leave the
first trajectory's GAE advantages untouched. -/
theorem C9_gae_trajectory_independence_witness :
    agC1.critic = some (fun x => x) ∧ agC1.gae_lambda = some (1/2) ∧
    agC1.normalize_advantages = false ∧
    ([0, 0, 0, 0] : List ℚ).length = ([1, 1, 1, 1] : List ℚ).length ∧
    (1 : ℕ) < ([1, 1, 1, 1] : List ℚ).length ∧
    ([0, 1, 0, 1] : List ℚ).getD 1 0 = 1 ∧
    (∀ j, 0 ≤ j → j ≤ 1 → ([1, 2, 3, 4] : List ℚ).getD j 0 = ([1, 2, 9, 9] : List ℚ).getD j 0) ∧
    ∃ a1 a2 : List ℚ,
      estimate_advantage agC1 [1, 1, 1, 1] [1, 2, 3, 4] [0, 0, 0, 0] [0, 1, 0, 1] (fun _ => 0)
        = Except.ok a1 ∧
      estimate_advantage agC1 [1, 1, 1, 1] [1, 2, 9, 9] [0, 0, 0, 0] [0, 1, 0, 1] (fun _ => 0)
        = Except.ok a2 ∧
      ∀ i, 0 ≤ i → i ≤ 1 → a1.getD i 0 = a2.getD i 0 := by
  have hagree : ∀ j, 0 ≤ j → j ≤ 1 →
      ([1, 2, 3, 4] : List ℚ).getD j 0 = ([1, 2, 9, 9] : List ℚ).getD j 0 := by
    intro j _ h2
    interval_cases j <;> rfl
  exact ⟨rfl, rfl, rfl, rfl, by decide, by decide, hagree,
    C9_gae_trajectory_independence agC1 (fun x => x) (1/2) [1, 1, 1, 1] [1, 2, 3, 4]
      [1, 2, 9, 9] [0, 0, 0, 0] [0, 1, 0, 1] (fun _ => 0) rfl rfl rfl rfl 0 1
      (by decide) (by decide) hagree⟩

/-- The critic loop's final state is the `k`-fold iterate, and its recorded
diagnostics are those of the final gradient step (none when `k = 0`). -/
theorem criticLoop_eq {σc Dc : Type} (f : σc → σc × Dc) :
    ∀ k s, criticLoop f k s =
      (criticIter f k s, if k = 0 then none else some (f (criticIter f (k - 1) s)).2) := by
  intro k
  induction k with
  | zero =>
      intro s
      rfl
  | succ k ih =>
      intro s
      show (match criticLoop f k (f s).1 with
        | (s2, none) => (s2, some (f s).2)
        | (s2, some d) => (s2, some d)) = _
      rw [ih (f s).1]
      by_cases hk : k = 0
      · subst hk
        simp [criticIter]
      · simp only [hk, if_neg, if_false]
        have hk1 : ¬ (k + 1 = 0) := by omega
        simp only [hk1, if_false]
        have h2 : criticIter f k (f s).1 = criticIter f (k + 1) s := rfl
        have h3 : criticIter f (k - 1) (f s).1 = criticIter f (k + 1 - 1) s := by
          obtain ⟨m, rfl⟩ : ∃ m, k = m + 1 := ⟨k - 1, by omega⟩
          rfl
        rw [h2, h3]

/-- C4: on a successful update, the policy is updated exactly once with the
flattened observations, actions and advantages; with a baseline configured
for `k` gradient steps the critic is updated exactly `k` times, every call
receiving the same flattened (observations, Q-values) pair; the returned
diagnostics hold the policy record and, when at least one baseline step ran,
the final baseline step's diagnostics. -/
theorem C4_update_protocol {σa σc Da Dc : Type} (ag : Agent) (co : Collabs σa σc Da Dc)
    (sa : σa) (sc : σc) (obs actions rewards terminals : List (List ℚ))
    (stdFn : List ℚ → ℚ) (adv : List ℚ)
    (hadv : estimate_advantage ag obs.flatten rewards.flatten
        ((calculate_q_vals ag rewards).flatten) terminals.flatten stdFn = Except.ok adv) :
    (ag.critic = none →
      PGAgent.update ag co sa sc obs actions rewards terminals stdFn
        = ([Call.actor obs.flatten actions.flatten adv],
            Except.ok ⟨(co.actorUpd sa obs.flatten actions.flatten adv).1, sc,
              (co.actorUpd sa obs.flatten actions.flatten adv).2, none⟩)) ∧
    (∀ (c : ℚ → ℚ) (k : ℕ), ag.critic = some c →
      ag.baseline_gradient_steps = some (k : Int) →
      PGAgent.update ag co sa sc obs actions rewards terminals stdFn
        = (Call.actor obs.flatten actions.flatten adv
              :: List.replicate k
                  (Call.critic obs.flatten ((calculate_q_vals ag rewards).flatten)),
            Except.ok ⟨(co.actorUpd sa obs.flatten actions.flatten adv).1,
              criticIter (fun s => co.criticUpd s obs.flatten
                ((calculate_q_vals ag rewards).flatten)) k sc,
              (co.actorUpd sa obs.flatten actions.flatten adv).2,
              if k = 0 then none
              else some ((co.criticUpd (criticIter (fun s => co.criticUpd s obs.flatten
                ((calculate_q_vals ag rewards).flatten)) (k - 1) sc) obs.flatten
                ((calculate_q_vals ag rewards).flatten)).2)⟩)) := by
  constructor
  · intro hc
    dsimp only [PGAgent.update]
    rw [hadv, hc]
  · intro c k hc hk
    dsimp only [PGAgent.update]
    rw [hadv, hc, hk]
    simp only [Int.toNat_natCast]
    rw [criticLoop_eq]

/-- An `Except` whose `toOption` is `some a` is `ok a`. -/
theorem except_eq_ok_of_toOption {ε α : Type} (e : Except ε α) (a : α)
    (h : e.toOption = some a) : e = Except.ok a := by
  cases e with
  | error err => simp [Except.toOption] at h
  | ok b => simpa [Except.toOption] using h

/-- C4 witness: a concrete one-transition batch with two baseline steps. -/
theorem C4_update_protocol_witness :
    estimate_advantage agC4 ([[1]] : List (List ℚ)).flatten ([[3]] : List (List ℚ)).flatten
        ((calculate_q_vals agC4 [[3]]).flatten) ([[1]] : List (List ℚ)).flatten (fun _ => 0)
      = Except.ok [3] ∧
    agC4.critic = some (fun _ => 0) ∧
    agC4.baseline_gradient_steps = some ((2 : ℕ) : Int) ∧
    PGAgent.update agC4 coC4 0 0 [[1]] [[2]] [[3]] [[1]] (fun _ => 0)
      = (Call.actor ([[1]] : List (List ℚ)).flatten ([[2]] : List (List ℚ)).flatten [3]
            :: List.replicate 2 (Call.critic ([[1]] : List (List ℚ)).flatten
                ((calculate_q_vals agC4 [[3]]).flatten)),
          Except.ok ⟨(coC4.actorUpd 0 ([[1]] : List (List ℚ)).flatten
              ([[2]] : List (List ℚ)).flatten [3]).1,
            criticIter (fun s => coC4.criticUpd s ([[1]] : List (List ℚ)).flatten
              ((calculate_q_vals agC4 [[3]]).flatten)) 2 0,
            (coC4.actorUpd 0 ([[1]] : List (List ℚ)).flatten
              ([[2]] : List (List ℚ)).flatten [3]).2,
            if (2 : ℕ) = 0 then none
            else some ((coC4.criticUpd (criticIter (fun s => coC4.criticUpd s
              ([[1]] : List (List ℚ)).flatten ((calculate_q_vals agC4 [[3]]).flatten)) (2 - 1) 0)
              ([[1]] : List (List ℚ)).flatten ((calculate_q_vals agC4 [[3]]).flatten)).2)⟩) := by
  have h : estimate_advantage agC4 ([[1]] : List (List ℚ)).flatten
      ([[3]] : List (List ℚ)).flatten ((calculate_q_vals agC4 [[3]]).flatten)
      ([[1]] : List (List ℚ)).flatten (fun _ => 0) = Except.ok [3] := by
    simp [estimate_advantage, agC4, calculate_q_vals, discounted_reward_to_go]
    norm_num [List.range_succ, List.range'_one]
    rfl
  exact ⟨h, rfl, rfl,
    (C4_update_protocol agC4 coC4 0 0 [[1]] [[2]] [[3]] [[1]] (fun _ => 0) [3] h).2
      (fun _ => 0) 2 rfl rfl⟩

/-- The shape `assert`: with a critic whose predictions differ in length
from the Q-value array, `_estimate_advantage` raises immediately. -/
theorem estimate_advantage_mismatch (ag : Agent) (crit : ℚ → ℚ)
    (obs rewards q_values terminals : List ℚ) (stdFn : List ℚ → ℚ)
    (hc : ag.critic = some crit)
    (hmis : (obs.map crit).length ≠ q_values.length) :
    estimate_advantage ag obs rewards q_values terminals stdFn
      = Except.error AgentErr.shapeMismatch := by
  simp only [estimate_advantage, hc]
  rw [if_neg hmis]
  rfl

/-- C5: whenever a baseline is configured and its predictions on the
flattened observations differ in shape from the Q-value array, the update
call fails with the shape-mismatch error having performed no collaborator
invocation at all — before any policy or baseline parameter mutation. -/
theorem C5_shape_mismatch_aborts {σa σc Da Dc : Type} (ag : Agent)
    (co : Collabs σa σc Da Dc) (sa : σa) (sc : σc)
    (obs actions rewards terminals : List (List ℚ)) (stdFn : List ℚ → ℚ) (crit : ℚ → ℚ)
    (hc : ag.critic = some crit)
    (hmis : (obs.flatten.map crit).length ≠ ((calculate_q_vals ag rewards).flatten).length) :
    PGAgent.update ag co sa sc obs actions rewards terminals stdFn
      = ([], Except.error AgentErr.shapeMismatch) := by
  dsimp only [PGAgent.update]
  rw [estimate_advantage_mismatch ag crit _ _ _ _ stdFn hc hmis]

/-- C5 witness: two observations against one reward — the predictions have
length 2, the Q-values length 1, and the call aborts with an empty trace. -/
theorem C5_shape_mismatch_aborts_witness :
    agC5.critic = some (fun x => x) ∧
    (([[1, 2]] : List (List ℚ)).flatten.map (fun x => x)).length
      ≠ ((calculate_q_vals agC5 [[3]]).flatten).length ∧
    PGAgent.update agC5 coC5 0 0 [[1, 2]] [[7]] [[3]] [[1]] (fun _ => 0)
      = ([], Except.error AgentErr.shapeMismatch) := by
  have hmis : (([[1, 2]] : List (List ℚ)).flatten.map (fun x => x)).length
      ≠ ((calculate_q_vals agC5 [[3]]).flatten).length := by
    decide
  exact ⟨rfl, hmis,
    C5_shape_mismatch_aborts agC5 coC5 0 0 [[1, 2]] [[7]] [[3]] [[1]] (fun _ => 0)
      (fun x => x) rfl hmis⟩

/-- C6 counterexample: the inconsistent configuration "GAE λ set while the
baseline flag is off" is accepted — construction succeeds instead of
failing, because `__init__` performs no validation at all. -/
theorem C6_construction_counterexample :
    (PGAgent.mk
      { gamma := 1, use_baseline := false, use_reward_to_go := false,
        baseline_gradient_steps := none, gae_lambda := some (95/100),
        normalize_advantages := false } (fun _ => 0)).isSome = true := rfl

/-- C6 amended: construction never fails, whatever the configuration; when
λ is set without the baseline flag the built agent has no critic, so the
advantage estimator silently ignores λ and returns the raw Q-values (with
normalization off), and the inconsistency is never rejected. -/
theorem C6_no_construction_validation (cfg : AgentConfig) (critic0 : ℚ → ℚ) :
    (PGAgent.mk cfg critic0).isSome = true ∧
    (cfg.use_baseline = false → cfg.normalize_advantages = false →
      ∀ (ag : Agent) (obs rewards q terminals : List ℚ) (stdFn : List ℚ → ℚ),
        PGAgent.mk cfg critic0 = some ag →
        estimate_advantage ag obs rewards q terminals stdFn = Except.ok q) := by
  refine ⟨rfl, ?_⟩
  intro hb hn ag obs rewards q terminals stdFn hmk
  simp only [PGAgent.mk, hb, Bool.false_eq_true, if_false, Option.some.injEq] at hmk
  subst hmk
  simp [estimate_advantage, hn]
  rfl

/-- C6 amended witness: the λ-without-baseline configuration builds an agent
whose advantages are the raw Q-values. -/
theorem C6_no_construction_validation_witness :
    ((({ gamma := 1, use_baseline := false, use_reward_to_go := false,
          baseline_gradient_steps := none, gae_lambda := some (95/100),
          normalize_advantages := false } : AgentConfig)).use_baseline = false) ∧
    estimate_advantage
      { critic := none, baseline_gradient_steps := none, gamma := 1,
        use_reward_to_go := false, gae_lambda := some (95/100),
        normalize_advantages := false }
      [1] [2] [3] [0] (fun _ => 0) = Except.ok [3] :=
  ⟨rfl,
    (C6_no_construction_validation
      { gamma := 1, use_baseline := false, use_reward_to_go := false,
        baseline_gradient_steps := none, gae_lambda := some (95/100),
        normalize_advantages := false } (fun _ => 0)).2 rfl rfl
      _ [1] [2] [3] [0] (fun _ => 0) rfl⟩

/-- C7 counterexample: a batch whose one trajectory has 2 observations,
1 action, 1 reward and 3 terminal flags — mismatched lengths within the
trajectory — is not rejected: the update call succeeds. -/
theorem C7_mismatched_batch_counterexample :
    (PGAgent.update agC7 coC7 0 0 [[1, 2]] [[5]] [[1]] [[0, 0, 1]]
      (fun _ => 0)).2.toOption.isSome = true := by
  have hadv : estimate_advantage agC7 ([[1, 2]] : List (List ℚ)).flatten
      ([[1]] : List (List ℚ)).flatten ((calculate_q_vals agC7 [[1]]).flatten)
      ([[0, 0, 1]] : List (List ℚ)).flatten (fun _ => 0)
      = Except.ok ((calculate_q_vals agC7 [[1]]).flatten) := by
    simp [estimate_advantage, agC7]
    rfl
  dsimp only [PGAgent.update]
  rw [hadv]
  rfl

/-- C7 amended: the update performs no per-trajectory length validation at
all — the flattening happens unconditionally, with no hypothesis relating
the four trajectories' lengths; without a baseline the call then completes
normally, the policy receiving the flattened arrays.  (With a baseline, a
total-length mismatch surfaces only after flattening, as the shape
assert.) -/
theorem C7_no_length_validation {σa σc Da Dc : Type} (ag : Agent)
    (co : Collabs σa σc Da Dc) (sa : σa) (sc : σc)
    (obs actions rewards terminals : List (List ℚ)) (stdFn : List ℚ → ℚ)
    (hc : ag.critic = none) (hn : ag.normalize_advantages = false) :
    PGAgent.update ag co sa sc obs actions rewards terminals stdFn
      = ([Call.actor obs.flatten actions.flatten ((calculate_q_vals ag rewards).flatten)],
          Except.ok ⟨(co.actorUpd sa obs.flatten actions.flatten
              ((calculate_q_vals ag rewards).flatten)).1, sc,
            (co.actorUpd sa obs.flatten actions.flatten
              ((calculate_q_vals ag rewards).flatten)).2, none⟩) := by
  have hadv : estimate_advantage ag obs.flatten rewards.flatten
      ((calculate_q_vals ag rewards).flatten) terminals.flatten stdFn
      = Except.ok ((calculate_q_vals ag rewards).flatten) := by
    simp [estimate_advantage, hc, hn]
    rfl
  dsimp only [PGAgent.update]
  rw [hadv, hc]

/-- C7 amended witness: the mismatched batch flows through flattening and a
successful policy update. -/
theorem C7_no_length_validation_witness :
    agC7.critic = none ∧ agC7.normalize_advantages = false ∧
    PGAgent.update agC7 coC7 0 0 [[1, 2]] [[5]] [[1]] [[0, 0, 1]] (fun _ => 0)
      = ([Call.actor ([[1, 2]] : List (List ℚ)).flatten ([[5]] : List (List ℚ)).flatten
            ((calculate_q_vals agC7 [[1]]).flatten)],
          Except.ok ⟨(coC7.actorUpd 0 ([[1, 2]] : List (List ℚ)).flatten
              ([[5]] : List (List ℚ)).flatten ((calculate_q_vals agC7 [[1]]).flatten)).1, 0,
            (coC7.actorUpd 0 ([[1, 2]] : List (List ℚ)).flatten
              ([[5]] : List (List ℚ)).flatten ((calculate_q_vals agC7 [[1]]).flatten)).2,
            none⟩) :=
  ⟨rfl, rfl,
    C7_no_length_validation agC7 coC7 0 0 [[1, 2]] [[5]] [[1]] [[0, 0, 1]] (fun _ => 0)
      rfl rfl⟩

/-- Summing `(x − m)/c` over a list. -/
theorem sum_map_sub_div (l : List ℚ) (m c : ℚ) :
    (l.map (fun x => (x - m) / c)).sum = (l.sum - l.length * m) / c := by
  induction l with
  | nil => simp
  | cons x xs ih =>
      simp only [List.map_cons, List.sum_cons, ih, List.length_cons, List.sum_cons]
      rw [div_add_div_same]
      congr 1
      push_cast
      ring

/-- Averaging `(x − m)/c` over a nonempty list. -/
theorem listMean_map_sub_div (l : List ℚ) (m c : ℚ) (hl : l ≠ []) :
    listMean (l.map (fun x => (x - m) / c)) = (listMean l - m) / c := by
  unfold listMean
  rw [List.length_map, sum_map_sub_div]
  have hn : (l.length : ℚ) ≠ 0 := by
    have := List.length_pos.mpr hl
    positivity
  have h1 : l.sum / l.length - m = (l.sum - l.length * m) / l.length := by
    field_simp
  rw [h1, div_div, div_div]
  ring_nf

/-- Centring a list at its own mean and dividing yields mean 0 exactly. -/
theorem listMean_center_div (l : List ℚ) (c : ℚ) (hl : l ≠ []) :
    listMean (l.map (fun x => (x - listMean l) / c)) = 0 := by
  rw [listMean_map_sub_div l (listMean l) c hl, sub_self, zero_div]

/-- The variance of the centred-and-scaled list is the variance over `c²`. -/
theorem listVariance_center_div (l : List ℚ) (c : ℚ) (hl : l ≠ []) :
    listVariance (l.map (fun x => (x - listMean l) / c)) = listVariance l / c ^ 2 := by
  unfold listVariance
  rw [listMean_center_div l c hl]
  simp only [sub_zero, List.map_map]
  have hmaps : l.map ((fun x => x ^ 2) ∘ (fun x => (x - listMean l) / c))
      = (l.map (fun x => (x - listMean l) ^ 2)).map (fun y => (y - 0) / c ^ 2) := by
    rw [List.map_map]
    apply List.map_congr_left
    intro x _
    simp [Function.comp, div_pow]
  rw [hmaps, listMean_map_sub_div _ 0 (c ^ 2) (by simpa using hl), sub_zero]

/-- A list containing an element off its mean has positive variance. -/
theorem listVariance_pos (l : List ℚ) (x : ℚ) (hx : x ∈ l) (hxne : x ≠ listMean l) :
    0 < listVariance l := by
  unfold listVariance
  have hx2 : (x - listMean l) ^ 2 ∈ l.map (fun y => (y - listMean l) ^ 2) :=
    List.mem_map_of_mem _ hx
  have hnonneg : ∀ y ∈ l.map (fun y => (y - listMean l) ^ 2), (0 : ℚ) ≤ y := by
    intro y hy
    obtain ⟨z, _, rfl⟩ := List.mem_map.mp hy
    exact sq_nonneg _
  have hxpos : 0 < (x - listMean l) ^ 2 := by
    have hne : x - listMean l ≠ 0 := sub_ne_zero.mpr hxne
    exact lt_of_le_of_ne (sq_nonneg _) (Ne.symm (pow_ne_zero 2 hne))
  have hsum : 0 < (l.map (fun y => (y - listMean l) ^ 2)).sum :=
    lt_of_lt_of_le hxpos (List.single_le_sum hnonneg _ hx2)
  have hlen : (0 : ℚ) < (l.map (fun y => (y - listMean l) ^ 2)).length := by
    have : l ≠ [] := List.ne_nil_of_mem hx
    have := List.length_pos.mpr this
    simp only [List.length_map]
    exact_mod_cast this
  unfold listMean
  positivity

theorem epsNorm_pos : (0 : ℚ) < epsNorm := by
  norm_num [epsNorm]

/-- With normalization on, the result is the normalized raw advantages. -/
theorem estimate_advantage_normalize (ag : Agent)
    (obs rewards q terminals : List ℚ) (stdFn : List ℚ → ℚ) (a : List ℚ)
    (hraw : estimate_advantage { ag with normalize_advantages := false }
      obs rewards q terminals stdFn = Except.ok a)
    (hn : ag.normalize_advantages = true) :
    estimate_advantage ag obs rewards q terminals stdFn
      = Except.ok (a.map (fun x => (x - listMean a) / (stdFn a + epsNorm))) := by
  unfold estimate_advantage at hraw ⊢
  dsimp only at hraw ⊢
  rcases hcrit : ag.critic with _ | crit
  · rw [hcrit] at hraw
    dsimp only at hraw ⊢
    simp only [Bool.false_eq_true, if_false, pure_bind] at hraw
    simp only [hn, if_true, pure_bind]
    injection hraw with h2
    rw [h2]
    rfl
  · rw [hcrit] at hraw
    dsimp only at hraw ⊢
    by_cases hlen : (List.map crit obs).length = q.length
    · rw [if_pos hlen] at hraw ⊢
      rcases hgae : ag.gae_lambda with _ | lam
      · rw [hgae] at hraw
        dsimp only at hraw ⊢
        simp only [Bool.false_eq_true, if_false, pure_bind] at hraw
        simp only [hn, if_true, pure_bind]
        injection hraw with h2
        rw [h2]
        rfl
      · rw [hgae] at hraw
        dsimp only at hraw ⊢
        simp only [Bool.false_eq_true, if_false, pure_bind] at hraw
        simp only [hn, if_true, pure_bind]
        injection hraw with h2
        rw [h2]
        rfl
    · rw [if_neg hlen] at hraw
      simp only [Bool.false_eq_true, if_false] at hraw
      exact absurd hraw (by simp [Except.bind, throw, throwThe, MonadExceptOf.throw])

/-- C8: with the normalize flag on, whatever advantage mode produced the raw
advantages `a`, the returned array is `(a − mean a)/(σ + 1e-8)` with
`σ = np.std(a)`; for a batch whose raw advantages are not all equal, the
resulting mean is exactly 0 and the resulting variance is `(σ/(σ+1e-8))²` —
a standard deviation of `σ/(σ+1e-8)`, within `1e-8/σ` of 1. -/
theorem C8_normalization (ag : Agent) (obs rewards q terminals : List ℚ)
    (stdFn : List ℚ → ℚ) (a : List ℚ) (σ x : ℚ)
    (hraw : estimate_advantage { ag with normalize_advantages := false }
      obs rewards q terminals stdFn = Except.ok a)
    (hn : ag.normalize_advantages = true)
    (hstd : stdFn a = σ) (hσ0 : 0 ≤ σ) (hσ : σ ^ 2 = listVariance a)
    (hx : x ∈ a) (hxne : x ≠ listMean a) :
    estimate_advantage ag obs rewards q terminals stdFn
      = Except.ok (a.map (fun y => (y - listMean a) / (σ + epsNorm))) ∧
    listMean (a.map (fun y => (y - listMean a) / (σ + epsNorm))) = 0 ∧
    listVariance (a.map (fun y => (y - listMean a) / (σ + epsNorm)))
      = (σ / (σ + epsNorm)) ^ 2 ∧
    |σ / (σ + epsNorm) - 1| ≤ epsNorm / σ := by
  have hane : a ≠ [] := List.ne_nil_of_mem hx
  have hvarpos : 0 < listVariance a := listVariance_pos a x hx hxne
  have hσpos : 0 < σ := by
    rcases lt_or_eq_of_le hσ0 with h | h
    · exact h
    · exfalso
      rw [← h] at hσ
      simp at hσ
      linarith
  have hcpos : 0 < σ + epsNorm := by
    have := epsNorm_pos
    linarith
  refine ⟨?_, ?_, ?_, ?_⟩
  · have := estimate_advantage_normalize ag obs rewards q terminals stdFn a hraw hn
    rw [hstd] at this
    exact this
  · exact listMean_center_div a (σ + epsNorm) hane
  · rw [listVariance_center_div a (σ + epsNorm) hane, ← hσ, div_pow]
  · have h1 : σ / (σ + epsNorm) - 1 = -(epsNorm / (σ + epsNorm)) := by
      field_simp
    rw [h1, abs_neg, abs_of_pos (div_pos epsNorm_pos hcpos)]
    have h2 : σ ≤ σ + epsNorm := by
      have := epsNorm_pos
      linarith
    gcongr
    exact le_of_lt epsNorm_pos

/-- C8 witness: raw advantages `[0, 2]` have mean 1 and standard deviation 1;
the normalized batch has mean exactly 0 and variance `(1/(1+1e-8))²`. -/
theorem C8_normalization_witness :
    estimate_advantage { agC8 with normalize_advantages := false }
      [1] [1] [0, 2] [0] (fun _ => 1) = Except.ok [0, 2] ∧
    agC8.normalize_advantages = true ∧
    (fun _ : List ℚ => (1 : ℚ)) [0, 2] = 1 ∧
    (0 : ℚ) ≤ 1 ∧ (1 : ℚ) ^ 2 = listVariance [0, 2] ∧
    (0 : ℚ) ∈ ([0, 2] : List ℚ) ∧ (0 : ℚ) ≠ listMean [0, 2] ∧
    (estimate_advantage agC8 [1] [1] [0, 2] [0] (fun _ => 1)
      = Except.ok (([0, 2] : List ℚ).map (fun y => (y - listMean [0, 2]) / (1 + epsNorm))) ∧
    listMean (([0, 2] : List ℚ).map (fun y => (y - listMean [0, 2]) / (1 + epsNorm))) = 0 ∧
    listVariance (([0, 2] : List ℚ).map (fun y => (y - listMean [0, 2]) / (1 + epsNorm)))
      = ((1 : ℚ) / (1 + epsNorm)) ^ 2 ∧
    |(1 : ℚ) / (1 + epsNorm) - 1| ≤ epsNorm / 1) := by
  have hraw : estimate_advantage { agC8 with normalize_advantages := false }
      [1] [1] [0, 2] [0] (fun _ => 1) = Except.ok [0, 2] := rfl
  have hσ : (1 : ℚ) ^ 2 = listVariance [0, 2] := by
    norm_num [listVariance, listMean]
  have hx : (0 : ℚ) ∈ ([0, 2] : List ℚ) := by
    simp
  have hxne : (0 : ℚ) ≠ listMean [0, 2] := by
    norm_num [listMean]
  exact ⟨hraw, rfl, rfl, by norm_num, hσ, hx, hxne,
    C8_normalization agC8 [1] [1] [0, 2] [0] (fun _ => 1) [0, 2] 1 0 hraw rfl rfl
      (by norm_num) hσ hx hxne⟩
